import Mathlib

/-!
Verification of the combomatic core (src/main.rs): the cyclic `modular_distance`
function and the `Config::guesses` enumerator/ranker, shallowly embedded in Lean.

Three layers model the Rust code:
* a pure layer over `Nat` (`modular_distance`, `Config.guesses`, ...), the direct
  transliteration of the arithmetic, valid when no u64 overflow/underflow occurs;
* a fully checked u64 layer (`Config.guessesChecked`) in which every u64
  operation is guarded against wrap-around; an out-of-range intermediate result
  is modelled as `GuessResult.panic` (Rust debug-build semantics, where overflow
  aborts), and the fallible `usize -> u32` length conversion as `GuessResult.err`;
* a subtraction-checked layer (`Config.guessesSub`, ...) in which only the u64
  subtractions are guarded, used to show the underflow branches are unreachable
  under the documented preconditions.

Rust's stable `sort_by_key` is modelled with `List.mergeSort` on the error-score
key.  The `csv` flag of the Rust `Config` only selects the output renderer and
plays no role in the core, so it is omitted from the embedded configuration.
-/

namespace Combomatic

/-- Configuration: ring bounds `min`/`max`, search `range`, base `combination`
(fields of the Rust `Config` struct; the rendering-only `csv` flag is omitted). -/
structure Config where
  min : Nat
  max : Nat
  range : Nat
  combination : List Nat
deriving DecidableEq, Repr

/-- Rust `modular_distance(a, b, modulus)`:
`cmp::min((a + modulus - b) % modulus, (b + modulus - a) % modulus)`. -/
def modular_distance (a b modulus : Nat) : Nat :=
  min ((a + modulus - b) % modulus) ((b + modulus - a) % modulus)

/-- Rust `Config::modulus`: `self.max - self.min + 1`. -/
def Config.modulus (c : Config) : Nat :=
  c.max - c.min + 1

/-- The local `base` of `Config::guesses`: `self.range * 2 + 1`. -/
def Config.base (c : Config) : Nat :=
  c.range * 2 + 1

/-- One digit of a generated guess (line 40 of main.rs):
`(offset + modulus + dn - range) % modulus + min` with `offset = n - min`. -/
def Config.digit (c : Config) (n dn : Nat) : Nat :=
  (n - c.min + c.modulus + dn - c.range) % c.modulus + c.min

/-- The inner loop of `Config::guesses`: walk the combination, peeling
base-`base` digits off `delta` (least-significant first). -/
def Config.buildGuess (c : Config) : Nat → List Nat → List Nat
  | _, [] => []
  | delta, n :: rest =>
    c.digit n (delta % c.base) :: c.buildGuess (delta / c.base) rest

/-- The guesses in generation order: one per `delta` in `0..base^numbers`. -/
def Config.rawGuesses (c : Config) : List (List Nat) :=
  (List.range (c.base ^ c.combination.length)).map
    fun delta => c.buildGuess delta c.combination

/-- Rust `Config::errors`: sum over positions of the cyclic distance between
the guess digit and the base-combination digit, both shifted by `min`. -/
def Config.errors (c : Config) (guess : List Nat) : Nat :=
  ((guess.zip c.combination).map
    fun p => modular_distance (p.1 - c.min) (p.2 - c.min) c.modulus).sum

/-- Rust `Config::guesses` (pure layer): the generated list, stably sorted by
error score (`guesses.sort_by_key(|guess| self.errors(guess))`). -/
def Config.guesses (c : Config) : List (List Nat) :=
  c.rawGuesses.mergeSort fun g1 g2 => decide (c.errors g1 ≤ c.errors g2)

/-! ### Fully checked u64 layer -/

/-- The u64 range bound. -/
def U64 : Nat := 2 ^ 64

/-- Checked u64 addition: `none` models the debug-build overflow panic. -/
def add64 (a b : Nat) : Option Nat :=
  if a + b < U64 then some (a + b) else none

/-- Checked u64 subtraction: `none` models the debug-build underflow panic. -/
def sub64 (a b : Nat) : Option Nat :=
  if b ≤ a then some (a - b) else none

/-- Checked u64 multiplication. -/
def mul64 (a b : Nat) : Option Nat :=
  if a * b < U64 then some (a * b) else none

/-- Checked u64 power (`u64::pow`): overflows exactly when the mathematical
result does not fit, since with base ≥ 1 every intermediate product divides
into the final result. -/
def pow64 (a b : Nat) : Option Nat :=
  if a ^ b < U64 then some (a ^ b) else none

/-- Outcome of running `Config::guesses` with full u64 semantics. -/
inductive GuessResult where
  /-- `Ok(guesses)` was returned. -/
  | ok : List (List Nat) → GuessResult
  /-- `Err(...)` was returned via `?` (the `usize -> u32` length conversion). -/
  | err : GuessResult
  /-- An arithmetic overflow/underflow panic (debug semantics). -/
  | panic : GuessResult
deriving DecidableEq, Repr

/-- Checked `Config::modulus`: `self.max - self.min + 1` over u64. -/
def modulus64 (mn mx : Nat) : Option Nat := do
  let d ← sub64 mx mn
  add64 d 1

/-- Checked digit computation, lines 39–40 of main.rs:
`offset = *n - min; *n = (offset + modulus() + dn - range) % modulus() + min`.
The modulus here is at least 1 whenever it is defined, so the `%` cannot be a
division by zero. -/
def digit64 (mn mx range n dn : Nat) : Option Nat := do
  let offset ← sub64 n mn
  let mdl ← modulus64 mn mx
  let t1 ← add64 offset mdl
  let t2 ← add64 t1 dn
  let t3 ← sub64 t2 range
  add64 (t3 % mdl) mn

/-- Checked inner loop of `Config::guesses` over one `delta`. -/
def buildGuess64 (mn mx range base : Nat) : Nat → List Nat → Option (List Nat)
  | _, [] => some []
  | delta, n :: rest => do
    let d ← digit64 mn mx range n (delta % base)
    let ds ← buildGuess64 mn mx range base (delta / base) rest
    return d :: ds

/-- Checked `modular_distance`. -/
def mdist64 (a b mdl : Nat) : Option Nat := do
  let x1 ← add64 a mdl
  let x2 ← sub64 x1 b
  let y1 ← add64 b mdl
  let y2 ← sub64 y1 a
  return min (x2 % mdl) (y2 % mdl)

/-- Checked `Config::errors`: per-position distances accumulated by `sum`
(left fold from 0, with the debug-build panic on overflowing addition). -/
def errors64 (mn mx : Nat) (combination guess : List Nat) : Option Nat :=
  (guess.zip combination).foldlM
    (fun acc p => do
      let a ← sub64 p.1 mn
      let b ← sub64 p.2 mn
      let mdl ← modulus64 mn mx
      let d ← mdist64 a b mdl
      add64 acc d)
    0

/-- Rust `Config::guesses` with full u64 semantics: compute
`base = range * 2 + 1`, convert the length, raise `base` to it, enumerate all
deltas, then stably sort by the error-score key. -/
def Config.guessesChecked (c : Config) : GuessResult :=
  match mul64 c.range 2 with
  | none => .panic
  | some r2 =>
    match add64 r2 1 with
    | none => .panic
    | some base =>
      if c.combination.length < 2 ^ 32 then
        match pow64 base c.combination.length with
        | none => .panic
        | some last =>
          match (List.range last).mapM
              (fun delta => buildGuess64 c.min c.max c.range base delta c.combination) with
          | none => .panic
          | some gs =>
            match gs.mapM (fun g => errors64 c.min c.max c.combination g) with
            | none => .panic
            | some keys =>
              .ok (((gs.zip keys).mergeSort fun p q => decide (p.2 ≤ q.2)).map Prod.fst)
      else .err

/-! ### Subtraction-checked layer -/

/-- `Config::modulus` with its u64 subtraction checked. -/
def Config.modulusSub (c : Config) : Option Nat := do
  let d ← sub64 c.max c.min
  return d + 1

/-- The digit computation with its two u64 subtractions checked
(`*n - min` and `... - range`). -/
def Config.digitSub (c : Config) (n dn : Nat) : Option Nat := do
  let offset ← sub64 n c.min
  let mdl ← c.modulusSub
  let t ← sub64 (offset + mdl + dn) c.range
  return t % mdl + c.min

/-- The inner loop with checked subtractions. -/
def Config.buildGuessSub (c : Config) : Nat → List Nat → Option (List Nat)
  | _, [] => some []
  | delta, n :: rest => do
    let d ← c.digitSub n (delta % c.base)
    let ds ← c.buildGuessSub (delta / c.base) rest
    return d :: ds

/-- All guesses in generation order, with checked subtractions. -/
def Config.rawGuessesSub (c : Config) : Option (List (List Nat)) :=
  (List.range (c.base ^ c.combination.length)).mapM
    fun delta => c.buildGuessSub delta c.combination

/-- `modular_distance` with its u64 subtractions checked. -/
def mdistSub (a b mdl : Nat) : Option Nat := do
  let x ← sub64 (a + mdl) b
  let y ← sub64 (b + mdl) a
  return min (x % mdl) (y % mdl)

/-- `Config::errors` with its u64 subtractions checked
(`*g - min` and `*c - min`). -/
def Config.errorsSub (c : Config) (guess : List Nat) : Option Nat :=
  (guess.zip c.combination).foldlM
    (fun acc p => do
      let a ← sub64 p.1 c.min
      let b ← sub64 p.2 c.min
      let mdl ← c.modulusSub
      let d ← mdistSub a b mdl
      return acc + d)
    0

/-- `Config::guesses` with checked subtractions: enumerate, key, stable sort. -/
def Config.guessesSub (c : Config) : Option (List (List Nat)) := do
  let gs ← c.rawGuessesSub
  let keys ← gs.mapM c.errorsSub
  return ((gs.zip keys).mergeSort fun p q => decide (p.2 ≤ q.2)).map Prod.fst

/-! ### Helper lemmas -/

theorem Config.modulus_pos (c : Config) : 0 < c.modulus :=
  Nat.succ_pos _

theorem cyc_sub_eq_int (a b m : Nat) (hb : b ≤ m) :
    (((a + m - b) % m : Nat) : Int) = ((a : Int) - b) % m := by
  have hcast : ((a + m - b : Nat) : Int) = (a : Int) + m - b := by
    omega
  have h1 : ((a : Int) - b) % m = ((a : Int) + m - b) % m := by
    have h2 : (a : Int) + m - b = (a : Int) - b + m := by ring
    rw [h2, Int.add_emod_self]
  rw [h1, ← hcast, Int.ofNat_emod]

theorem modular_distance_le_half (a b m : Nat) (ha : a < m) (hb : b < m) :
    modular_distance a b m ≤ m / 2 := by
  have hm : 0 < m := Nat.lt_of_le_of_lt (Nat.zero_le a) ha
  unfold modular_distance
  set x := (a + m - b) % m with hx
  set y := (b + m - a) % m with hy
  have hxm : x < m := Nat.mod_lt _ hm
  have hym : y < m := Nat.mod_lt _ hm
  have hsum : (x + y) % m = 0 := by
    have h2 : (a + m - b) + (b + m - a) = 2 * m := by omega
    calc (x + y) % m = ((a + m - b) % m + (b + m - a) % m) % m := by rw [hx, hy]
      _ = ((a + m - b) + (b + m - a)) % m := by rw [← Nat.add_mod]
      _ = (2 * m) % m := by rw [h2]
      _ = 0 := by rw [Nat.mul_comm]; exact Nat.mul_mod_right m 2
  have hdvd : m ∣ x + y := Nat.dvd_of_mod_eq_zero hsum
  rcases hdvd with ⟨k, hk⟩
  have hlt : x + y < m * 2 := by omega
  rw [hk] at hlt
  have hk2 : k < 2 := Nat.lt_of_mul_lt_mul_left hlt
  have hk01 : k = 0 ∨ k = 1 := by omega
  have h1 : min x y ≤ x := Nat.min_le_left _ _
  have h2 : min x y ≤ y := Nat.min_le_right _ _
  rcases hk01 with rfl | rfl
  · simp only [Nat.mul_zero] at hk
    omega
  · simp only [Nat.mul_one] at hk
    omega

/-- Claim C8: for all `a`, `b` in `[0, modulus)` with `modulus ≥ 1`, the distance
function is symmetric, `modular_distance a b m = modular_distance b a m`, and
`modular_distance a a m = 0`. -/
theorem modular_distance_symm_self (a b m : Nat) (ha : a < m) (hb : b < m)
    (hm : 1 ≤ m) :
    modular_distance a b m = modular_distance b a m ∧
    modular_distance a a m = 0 := by
  constructor
  · unfold modular_distance
    exact Nat.min_comm _ _
  · unfold modular_distance
    have h : a + m - a = m := by omega
    rw [h, Nat.mod_self]
    simp

theorem modular_distance_symm_self_witness :
    9 < 10 ∧ 3 < 10 ∧ 1 ≤ 10 ∧
    (modular_distance 9 3 10 = modular_distance 3 9 10 ∧
      modular_distance 9 9 10 = 0) :=
  ⟨by decide, by decide, by decide,
    modular_distance_symm_self 9 3 10 (by decide) (by decide) (by decide)⟩

/-- Claim C9: for all `a`, `b` in `[0, modulus)` with `modulus ≥ 1`,
`modular_distance a b m` equals the minimum of the clockwise distance
`(a - b) mod m` and the counter-clockwise distance `(b - a) mod m` over the
integers, lies between 0 and `m / 2` (floor), and is 0 whenever `m = 1` (the
function is total, so it cannot error there). -/
theorem modular_distance_min_spec (a b m : Nat) (ha : a < m) (hb : b < m)
    (hm : 1 ≤ m) :
    modular_distance a b m =
      min (((a : Int) - b) % m).toNat (((b : Int) - a) % m).toNat ∧
    modular_distance a b m ≤ m / 2 ∧
    (m = 1 → modular_distance a b m = 0) := by
  refine ⟨?_, modular_distance_le_half a b m ha hb, ?_⟩
  · have h1 : ((a + m - b) % m : Nat) = (((a : Int) - b) % m).toNat := by
      rw [← cyc_sub_eq_int a b m (Nat.le_of_lt hb), Int.toNat_natCast]
    have h2 : ((b + m - a) % m : Nat) = (((b : Int) - a) % m).toNat := by
      rw [← cyc_sub_eq_int b a m (Nat.le_of_lt ha), Int.toNat_natCast]
    unfold modular_distance
    rw [h1, h2]
  · intro h
    subst h
    unfold modular_distance
    simp [Nat.mod_one]

theorem modular_distance_min_spec_witness :
    0 < 10 ∧ 9 < 10 ∧ 1 ≤ 10 ∧
    (modular_distance 0 9 10 =
        min (((0 : Int) - 9) % 10).toNat (((9 : Int) - 0) % 10).toNat ∧
      modular_distance 0 9 10 ≤ 10 / 2 ∧
      (10 = 1 → modular_distance 0 9 10 = 0)) :=
  ⟨by decide, by decide, by decide,
    modular_distance_min_spec 0 9 10 (by decide) (by decide) (by decide)⟩

theorem base_eq (c : Config) : c.base = 2 * c.range + 1 := by
  unfold Config.base
  ring

theorem Config.buildGuess_length (c : Config) :
    ∀ (l : List Nat) (delta : Nat), (c.buildGuess delta l).length = l.length := by
  intro l
  induction l with
  | nil => intro delta; rfl
  | cons n rest ih =>
    intro delta
    simp only [Config.buildGuess, List.length_cons, ih]

theorem Config.buildGuess_getElem (c : Config) :
    ∀ (l : List Nat) (delta i : Nat) (hi : i < l.length),
      (c.buildGuess delta l)[i]? =
        some (c.digit (l.get ⟨i, hi⟩) ((delta / c.base ^ i) % c.base)) := by
  intro l
  induction l with
  | nil => intro delta i hi; exact absurd hi (by simp)
  | cons n rest ih =>
    intro delta i hi
    cases i with
    | zero =>
      simp [Config.buildGuess]
    | succ j =>
      have hj : j < rest.length := by simpa using hi
      calc (c.buildGuess delta (n :: rest))[j + 1]?
          = (c.buildGuess (delta / c.base) rest)[j]? := by
            simp [Config.buildGuess]
        _ = some (c.digit (rest.get ⟨j, hj⟩)
              ((delta / c.base / c.base ^ j) % c.base)) := ih (delta / c.base) j hj
        _ = some (c.digit ((n :: rest).get ⟨j + 1, hi⟩)
              ((delta / c.base ^ (j + 1)) % c.base)) := by
            rw [Nat.div_div_eq_div_mul, ← pow_succ']
            rfl

theorem Config.mem_buildGuess (c : Config) {x : Nat} :
    ∀ {l : List Nat} {delta : Nat}, x ∈ c.buildGuess delta l →
      ∃ n dn, x = c.digit n dn := by
  intro l
  induction l with
  | nil => intro delta h; exact absurd h (by simp [Config.buildGuess])
  | cons n rest ih =>
    intro delta h
    simp only [Config.buildGuess, List.mem_cons] at h
    rcases h with h | h
    · exact ⟨n, delta % c.base, h⟩
    · exact ih h

theorem Config.digit_bounds (c : Config) (hmm : c.min ≤ c.max) (n dn : Nat) :
    c.min ≤ c.digit n dn ∧ c.digit n dn ≤ c.max := by
  have h := Nat.mod_lt (n - c.min + c.modulus + dn - c.range) (c.modulus_pos)
  unfold Config.digit
  unfold Config.modulus at h ⊢
  omega

theorem Config.rawGuesses_mem_bounds (c : Config) (hmm : c.min ≤ c.max) :
    ∀ g ∈ c.rawGuesses, ∀ x ∈ g, c.min ≤ x ∧ x ≤ c.max := by
  intro g hg x hx
  unfold Config.rawGuesses at hg
  obtain ⟨delta, -, rfl⟩ := List.mem_map.1 hg
  obtain ⟨n, dn, rfl⟩ := c.mem_buildGuess hx
  exact c.digit_bounds hmm n dn

/-- Claim C2: with a non-empty base combination of `k` positions, every digit in
`[min, max]`, `min ≤ max`, and `(2*range+1)^k` representable without overflow,
`guesses` returns exactly `(2*range+1)^k` candidates (duplicates included: the
count is exact, nothing is merged). -/
theorem guesses_length (c : Config)
    (hne : c.combination ≠ [])
    (hdig : ∀ n ∈ c.combination, c.min ≤ n ∧ n ≤ c.max)
    (hmm : c.min ≤ c.max)
    (hov : (2 * c.range + 1) ^ c.combination.length < U64) :
    c.guesses.length = (2 * c.range + 1) ^ c.combination.length := by
  unfold Config.guesses Config.rawGuesses
  rw [List.length_mergeSort, List.length_map, List.length_range, base_eq]

theorem guesses_length_witness :
    ([0, 1] : List Nat) ≠ [] ∧
    (∀ n ∈ ([0, 1] : List Nat), 0 ≤ n ∧ n ≤ 99) ∧
    (0 : Nat) ≤ 99 ∧
    (2 * 1 + 1) ^ 2 < U64 ∧
    (Config.mk 0 99 1 [0, 1]).guesses.length = (2 * 1 + 1) ^ 2 :=
  ⟨by decide, by decide, by decide, by decide,
    guesses_length ⟨0, 99, 1, [0, 1]⟩ (by decide) (by decide) (by decide)
      (by decide)⟩

/-- Claim C4: with every base digit in `[min, max]`, `min ≤ max`,
`range ≤ modulus`, and `(2*range+1)^k` representable without overflow, every
digit of every candidate returned by `guesses` lies within `[min, max]`. -/
theorem guesses_digits_in_range (c : Config)
    (hdig : ∀ n ∈ c.combination, c.min ≤ n ∧ n ≤ c.max)
    (hmm : c.min ≤ c.max)
    (hrange : c.range ≤ c.modulus)
    (hov : (2 * c.range + 1) ^ c.combination.length < U64) :
    ∀ g ∈ c.guesses, ∀ x ∈ g, c.min ≤ x ∧ x ≤ c.max := by
  intro g hg
  exact c.rawGuesses_mem_bounds hmm g (List.mem_mergeSort.1 hg)

theorem guesses_digits_in_range_witness :
    (∀ n ∈ ([0, 1] : List Nat), 0 ≤ n ∧ n ≤ 99) ∧
    (0 : Nat) ≤ 99 ∧
    (Config.mk 0 99 1 [0, 1]).range ≤ (Config.mk 0 99 1 [0, 1]).modulus ∧
    (2 * 1 + 1) ^ 2 < U64 ∧
    ∀ g ∈ (Config.mk 0 99 1 [0, 1]).guesses, ∀ x ∈ g, 0 ≤ x ∧ x ≤ 99 :=
  ⟨by decide, by decide, by decide, by decide,
    guesses_digits_in_range ⟨0, 99, 1, [0, 1]⟩ (by decide) (by decide)
      (by decide) (by decide)⟩

/-- Claim C3: for every `delta` below `(2*range+1)^k`, the `delta`-th candidate
in generation order is obtained by decomposing `delta` in base `2*range+1`
least-significant digit first (offset `d_i = (delta / base^i) % base` at
position `i`) and setting position `i` to
`((n_i - min) + modulus + d_i - range) % modulus + min`, under digits in
`[min, max]`, `min ≤ max`, `range ≤ modulus`, and no overflow. -/
theorem rawGuesses_delta_formula (c : Config)
    (hdig : ∀ n ∈ c.combination, c.min ≤ n ∧ n ≤ c.max)
    (hmm : c.min ≤ c.max)
    (hrange : c.range ≤ c.modulus)
    (hov : (2 * c.range + 1) ^ c.combination.length < U64)
    (delta : Nat) (hd : delta < (2 * c.range + 1) ^ c.combination.length) :
    ∃ cand, c.rawGuesses[delta]? = some cand ∧
      cand.length = c.combination.length ∧
      ∀ i (hi : i < c.combination.length),
        cand[i]? = some ((c.combination.get ⟨i, hi⟩ - c.min + c.modulus +
          (delta / (2 * c.range + 1) ^ i) % (2 * c.range + 1) - c.range) %
            c.modulus + c.min) := by
  refine ⟨c.buildGuess delta c.combination, ?_, c.buildGuess_length _ _, ?_⟩
  · unfold Config.rawGuesses
    rw [List.getElem?_map, List.getElem?_range (by rw [base_eq]; exact hd)]
    rfl
  · intro i hi
    rw [c.buildGuess_getElem c.combination delta i hi, base_eq]
    rfl

theorem rawGuesses_delta_formula_witness :
    (∀ n ∈ ([0, 1] : List Nat), 0 ≤ n ∧ n ≤ 99) ∧
    (0 : Nat) ≤ 99 ∧
    (Config.mk 0 99 1 [0, 1]).range ≤ (Config.mk 0 99 1 [0, 1]).modulus ∧
    (2 * 1 + 1) ^ 2 < U64 ∧
    5 < (2 * 1 + 1) ^ 2 ∧
    ∃ cand, (Config.mk 0 99 1 [0, 1]).rawGuesses[(5 : Nat)]? = some cand ∧
      cand.length = 2 ∧
      ∀ i (hi : i < ([0, 1] : List Nat).length),
        cand[i]? = some ((([0, 1] : List Nat).get ⟨i, hi⟩ - 0 +
          (Config.mk 0 99 1 [0, 1]).modulus +
          ((5 : Nat) / (2 * 1 + 1) ^ i) % (2 * 1 + 1) - 1) %
            (Config.mk 0 99 1 [0, 1]).modulus + 0) :=
  ⟨by decide, by decide, by decide, by decide, by decide,
    rawGuesses_delta_formula ⟨0, 99, 1, [0, 1]⟩ (by decide) (by decide)
      (by decide) (by decide) 5 (by decide)⟩

theorem Config.errors_le_trans (c : Config) :
    ∀ x y z : List Nat, decide (c.errors x ≤ c.errors y) →
      decide (c.errors y ≤ c.errors z) → decide (c.errors x ≤ c.errors z) := by
  intro x y z hxy hyz
  simp only [decide_eq_true_eq] at hxy hyz ⊢
  omega

theorem Config.errors_le_total (c : Config) :
    ∀ x y : List Nat,
      (decide (c.errors x ≤ c.errors y) || decide (c.errors y ≤ c.errors x)) = true := by
  intro x y
  simp only [Bool.or_eq_true, decide_eq_true_eq]
  omega

/-- Claim C1: with a non-empty base combination, digits in `[min, max]`,
`min ≤ max`, and `(2*range+1)^k` representable without overflow, the list
returned by `guesses` is sorted non-decreasing by error score, and candidates
with equal error score keep their generation order (the sort is stable: for
each score, filtering `guesses` gives exactly the generation-order filtering of
the unsorted list). -/
theorem guesses_sorted_stable (c : Config)
    (hne : c.combination ≠ [])
    (hdig : ∀ n ∈ c.combination, c.min ≤ n ∧ n ≤ c.max)
    (hmm : c.min ≤ c.max)
    (hov : (2 * c.range + 1) ^ c.combination.length < U64) :
    c.guesses.Pairwise (fun g1 g2 => c.errors g1 ≤ c.errors g2) ∧
    ∀ s : Nat, c.guesses.filter (fun g => c.errors g == s) =
      c.rawGuesses.filter (fun g => c.errors g == s) := by
  constructor
  · have hs : (c.rawGuesses.mergeSort
        fun g1 g2 => decide (c.errors g1 ≤ c.errors g2)).Pairwise
          (fun g1 g2 => decide (c.errors g1 ≤ c.errors g2) = true) :=
      List.sorted_mergeSort (c.errors_le_trans) (c.errors_le_total) c.rawGuesses
    exact hs.imp fun h => by simpa using h
  · intro s
    set p : List Nat → Bool := fun g => c.errors g == s with hp
    set F := c.rawGuesses.filter p with hF
    have hFmem : ∀ g ∈ F, c.errors g = s := by
      intro g hg
      have := (List.mem_filter.1 hg).2
      simpa [hp] using this
    have hFpair : F.Pairwise fun g1 g2 => decide (c.errors g1 ≤ c.errors g2) := by
      apply List.pairwise_of_forall_mem_list
      intro a ha b hb
      simp [hFmem a ha, hFmem b hb]
    have hFsub : List.Sublist F c.guesses :=
      List.sublist_mergeSort (c.errors_le_trans) (c.errors_le_total) hFpair
        (List.filter_sublist _)
    have hFsub2 : List.Sublist F (c.guesses.filter p) := by
      have h1 : List.Sublist (F.filter p) ((c.guesses).filter p) := hFsub.filter p
      rwa [List.filter_eq_self.2 (fun a ha => (List.mem_filter.1 ha).2)] at h1
    have hlen : F.length = (c.guesses.filter p).length := by
      have hperm : List.Perm c.guesses c.rawGuesses := List.mergeSort_perm _ _
      exact ((hperm.filter p).length_eq).symm
    exact (hFsub2.eq_of_length hlen).symm

theorem guesses_sorted_stable_witness :
    ([0, 1] : List Nat) ≠ [] ∧
    (∀ n ∈ ([0, 1] : List Nat), 0 ≤ n ∧ n ≤ 99) ∧
    (0 : Nat) ≤ 99 ∧
    (2 * 1 + 1) ^ 2 < U64 ∧
    ((Config.mk 0 99 1 [0, 1]).guesses.Pairwise
      (fun g1 g2 => (Config.mk 0 99 1 [0, 1]).errors g1 ≤
        (Config.mk 0 99 1 [0, 1]).errors g2) ∧
    ∀ s : Nat, (Config.mk 0 99 1 [0, 1]).guesses.filter
        (fun g => (Config.mk 0 99 1 [0, 1]).errors g == s) =
      (Config.mk 0 99 1 [0, 1]).rawGuesses.filter
        (fun g => (Config.mk 0 99 1 [0, 1]).errors g == s)) :=
  ⟨by decide, by decide, by decide, by decide,
    guesses_sorted_stable ⟨0, 99, 1, [0, 1]⟩ (by decide) (by decide) (by decide)
      (by decide)⟩

theorem Config.modulusSub_eq (c : Config) (hmm : c.min ≤ c.max) :
    c.modulusSub = some c.modulus := by
  simp [Config.modulusSub, sub64, hmm, Config.modulus]

theorem Config.digitSub_eq (c : Config) (hmm : c.min ≤ c.max)
    (hr : c.range ≤ c.modulus) (n dn : Nat) (hn : c.min ≤ n) :
    c.digitSub n dn = some (c.digit n dn) := by
  have hr2 : c.range ≤ c.max - c.min + 1 := hr
  have hcond : c.range ≤ n - c.min + (c.max - c.min + 1) + dn := by omega
  simp [Config.digitSub, Config.modulusSub, sub64, hn, hmm, hcond, Config.digit,
    Config.modulus]

theorem Config.buildGuessSub_eq (c : Config) (hmm : c.min ≤ c.max)
    (hr : c.range ≤ c.modulus) :
    ∀ (l : List Nat) (delta : Nat), (∀ n ∈ l, c.min ≤ n) →
      c.buildGuessSub delta l = some (c.buildGuess delta l) := by
  intro l
  induction l with
  | nil => intro delta _; rfl
  | cons n rest ih =>
    intro delta h
    have hn : c.min ≤ n := h n (by simp)
    have hrest : ∀ m ∈ rest, c.min ≤ m := fun m hm => h m (by simp [hm])
    simp [Config.buildGuessSub, Config.buildGuess,
      c.digitSub_eq hmm hr n _ hn, ih _ hrest]

theorem mapM_eq_some_map {α β : Type} (f : α → Option β) (g : α → β) :
    ∀ l : List α, (∀ x ∈ l, f x = some (g x)) → l.mapM f = some (l.map g) := by
  intro l
  induction l with
  | nil => intro _; rfl
  | cons x t ih =>
    intro h
    rw [List.mapM_cons, h x (by simp), ih (fun y hy => h y (by simp [hy]))]
    rfl

theorem Config.rawGuessesSub_eq (c : Config) (hmm : c.min ≤ c.max)
    (hr : c.range ≤ c.modulus) (hd : ∀ n ∈ c.combination, c.min ≤ n) :
    c.rawGuessesSub = some c.rawGuesses := by
  unfold Config.rawGuessesSub Config.rawGuesses
  exact mapM_eq_some_map _ _ _
    (fun delta _ => c.buildGuessSub_eq hmm hr _ delta hd)

theorem mdistSub_eq (a b mdl : Nat) (ha : a < mdl) (hb : b < mdl) :
    mdistSub a b mdl = some (modular_distance a b mdl) := by
  have h1 : b ≤ a + mdl := by omega
  have h2 : a ≤ b + mdl := by omega
  simp [mdistSub, sub64, modular_distance, h1, h2]

theorem Config.errorsSub_eq (c : Config) (hmm : c.min ≤ c.max)
    (guess : List Nat)
    (hg : ∀ x ∈ guess, c.min ≤ x ∧ x ≤ c.max)
    (hc : ∀ n ∈ c.combination, c.min ≤ n ∧ n ≤ c.max) :
    c.errorsSub guess = some (c.errors guess) := by
  unfold Config.errorsSub Config.errors
  have hzip : ∀ p ∈ guess.zip c.combination,
      c.min ≤ p.1 ∧ p.1 ≤ c.max ∧ c.min ≤ p.2 ∧ p.2 ≤ c.max := by
    intro p hp
    obtain ⟨h1, h2⟩ := List.of_mem_zip hp
    exact ⟨(hg _ h1).1, (hg _ h1).2, (hc _ h2).1, (hc _ h2).2⟩
  have key : ∀ (l : List (Nat × Nat)) (acc : Nat),
      (∀ p ∈ l, c.min ≤ p.1 ∧ p.1 ≤ c.max ∧ c.min ≤ p.2 ∧ p.2 ≤ c.max) →
      l.foldlM
        (fun acc p => do
          let a ← sub64 p.1 c.min
          let b ← sub64 p.2 c.min
          let mdl ← c.modulusSub
          let d ← mdistSub a b mdl
          return acc + d)
        acc =
      some (acc +
        (l.map fun p => modular_distance (p.1 - c.min) (p.2 - c.min) c.modulus).sum) := by
    intro l
    induction l with
    | nil => intro acc _; simp
    | cons p t ih =>
      intro acc hp
      have hp1 := hp p (by simp)
      have ha : p.1 - c.min < c.modulus := by
        unfold Config.modulus
        omega
      have hb : p.2 - c.min < c.modulus := by
        unfold Config.modulus
        omega
      rw [List.foldlM_cons]
      have hstep : (do
          let a ← sub64 p.1 c.min
          let b ← sub64 p.2 c.min
          let mdl ← c.modulusSub
          let d ← mdistSub a b mdl
          return acc + d) =
          some (acc + modular_distance (p.1 - c.min) (p.2 - c.min) c.modulus) := by
        simp [sub64, hp1.1, hp1.2.2.1, c.modulusSub_eq hmm, mdistSub_eq _ _ _ ha hb]
      rw [hstep]
      have ih2 := ih (acc + modular_distance (p.1 - c.min) (p.2 - c.min) c.modulus)
        (fun q hq => hp q (by simp [hq]))
      rw [List.map_cons, List.sum_cons, ← Nat.add_assoc]
      exact ih2
  rw [key _ 0 hzip]
  simp

theorem Config.guessesSub_eq (c : Config) (hmm : c.min ≤ c.max)
    (hr : c.range ≤ c.modulus)
    (hdig : ∀ n ∈ c.combination, c.min ≤ n ∧ n ≤ c.max) :
    c.guessesSub = some c.guesses := by
  unfold Config.guessesSub
  rw [c.rawGuessesSub_eq hmm hr (fun n hn => (hdig n hn).1)]
  have hkeys : c.rawGuesses.mapM c.errorsSub =
      some (c.rawGuesses.map c.errors) :=
    mapM_eq_some_map _ _ _ fun g hg =>
      c.errorsSub_eq hmm g (fun x hx => c.rawGuesses_mem_bounds hmm g hg x hx) hdig
  simp only [Option.bind_eq_bind, Option.some_bind, hkeys]
  have hzip : c.rawGuesses.zip (c.rawGuesses.map c.errors) =
      c.rawGuesses.map fun g => (g, c.errors g) := by
    have h := List.zip_map' id c.errors c.rawGuesses
    simpa using h
  rw [hzip]
  have hmap : (((c.rawGuesses.map fun g => (g, c.errors g)).mergeSort
        fun p q => decide (p.2 ≤ q.2)).map Prod.fst) =
      (((c.rawGuesses.map fun g => (g, c.errors g)).map Prod.fst).mergeSort
        fun g1 g2 => decide (c.errors g1 ≤ c.errors g2)) :=
    List.map_mergeSort (by
      intro a ha b hb
      obtain ⟨ga, -, rfl⟩ := List.mem_map.1 ha
      obtain ⟨gb, -, rfl⟩ := List.mem_map.1 hb
      rfl)
  rw [hmap]
  have hfst : (c.rawGuesses.map fun g => (g, c.errors g)).map Prod.fst =
      c.rawGuesses := by
    rw [List.map_map]
    have hcomp : (Prod.fst ∘ fun g : List Nat => (g, c.errors g)) = id := rfl
    rw [hcomp, List.map_id]
  rw [hfst]
  rfl

/-- Claim C10 (implicit): under digits in `[min, max]`, `min ≤ max`, and
`range ≤ modulus`, none of the u64 subtractions in the candidate-digit
computation (`*n - min`, `offset + modulus + dn - range`) or the error-score
computation (`*g - min`, `*c - min`) can underflow, so the subtraction-checked
`guesses` and `errors` succeed and agree with the pure model; and when
`range > modulus` the guard fails at a digit equal to `min` with offset
`dn = 0`. -/
theorem guesses_no_underflow :
    (∀ c : Config,
      (∀ n ∈ c.combination, c.min ≤ n ∧ n ≤ c.max) → c.min ≤ c.max →
      c.range ≤ c.modulus →
      c.guessesSub = some c.guesses ∧
      (∀ g ∈ c.rawGuesses, c.errorsSub g = some (c.errors g))) ∧
    (∀ c : Config, c.modulus < c.range → c.digitSub c.min 0 = none) := by
  constructor
  · intro c hdig hmm hr
    refine ⟨c.guessesSub_eq hmm hr hdig, ?_⟩
    intro g hg
    exact c.errorsSub_eq hmm g
      (fun x hx => c.rawGuesses_mem_bounds hmm g hg x hx) hdig
  · intro c hlt
    unfold Config.digitSub
    rw [show sub64 c.min c.min = some 0 from by simp [sub64]]
    cases hms : c.modulusSub with
    | none => simp
    | some mdl =>
      have hmdl : mdl = c.modulus := by
        unfold Config.modulusSub sub64 at hms
        by_cases h : c.min ≤ c.max
        · rw [if_pos h] at hms
          unfold Config.modulus
          simp at hms
          omega
        · rw [if_neg h] at hms
          simp at hms
      subst hmdl
      simp only [Option.some_bind, Option.bind_eq_bind]
      simp [sub64]
      omega

theorem guesses_no_underflow_witness :
    ((∀ n ∈ ([0, 1] : List Nat), 0 ≤ n ∧ n ≤ 99) ∧ (0 : Nat) ≤ 99 ∧
      (Config.mk 0 99 1 [0, 1]).range ≤ (Config.mk 0 99 1 [0, 1]).modulus ∧
      (Config.mk 0 99 1 [0, 1]).guessesSub =
        some (Config.mk 0 99 1 [0, 1]).guesses ∧
      (∀ g ∈ (Config.mk 0 99 1 [0, 1]).rawGuesses,
        (Config.mk 0 99 1 [0, 1]).errorsSub g =
          some ((Config.mk 0 99 1 [0, 1]).errors g))) ∧
    ((Config.mk 0 1 5 [0]).modulus < (Config.mk 0 1 5 [0]).range ∧
      (Config.mk 0 1 5 [0]).digitSub 0 0 = none) :=
  ⟨⟨by decide, by decide, by decide,
    (guesses_no_underflow.1 ⟨0, 99, 1, [0, 1]⟩ (by decide) (by decide)
      (by decide)).1,
    (guesses_no_underflow.1 ⟨0, 99, 1, [0, 1]⟩ (by decide) (by decide)
      (by decide)).2⟩,
   ⟨by decide, guesses_no_underflow.2 ⟨0, 1, 5, [0]⟩ (by decide)⟩⟩

theorem mapM_eq_none_of_all_none {α β : Type} (f : α → Option β) :
    ∀ {l : List α}, l ≠ [] → (∀ x ∈ l, f x = none) → l.mapM f = none := by
  intro l hne h
  cases l with
  | nil => exact absurd rfl hne
  | cons x t =>
    rw [List.mapM_cons, h x (by simp)]
    rfl

/-- Claim C5, amended: with an empty base combination (and `2*range + 1`
representable), `Config::guesses` does not report a "no combination supplied"
error; it succeeds and returns a single empty candidate. -/
theorem Config.guessesChecked_empty (c : Config) (hce : c.combination = [])
    (hb : c.range * 2 + 1 < U64) :
    c.guessesChecked = .ok [[]] := by
  have h1 : mul64 c.range 2 = some (c.range * 2) := by
    unfold mul64
    rw [if_pos (by omega)]
  have h2 : add64 (c.range * 2) 1 = some (c.range * 2 + 1) := by
    unfold add64
    rw [if_pos hb]
  have h3 : pow64 (c.range * 2 + 1) 0 = some 1 := by
    unfold pow64
    rw [pow_zero, if_pos (by norm_num [U64])]
  have h4 : (List.range 1).mapM
      (fun delta => buildGuess64 c.min c.max c.range (c.range * 2 + 1) delta []) =
      some [[]] := rfl
  have h5 : ([[]] : List (List Nat)).mapM (fun g => errors64 c.min c.max [] g) =
      some [0] := rfl
  have hlen : (0 : Nat) < 2 ^ 32 := by norm_num
  simp only [Config.guessesChecked, hce, List.length_nil, h1, h2, hlen, if_true,
    h3, h4, h5]
  simp [List.mergeSort_singleton]

theorem guessesChecked_empty_witness :
    (([] : List Nat) = []) ∧ 2 * 2 + 1 < U64 ∧
    Config.guessesChecked ⟨0, 99, 2, []⟩ = GuessResult.ok [[]] :=
  ⟨rfl, by decide, Config.guessesChecked_empty ⟨0, 99, 2, []⟩ rfl (by decide)⟩

/-- Claim C5 counterexample: on the default ring with an empty combination the
checked `guesses` returns `Ok` with one empty candidate; it does not return an
error of any kind. -/
theorem guessesChecked_empty_counterexample :
    Config.guessesChecked ⟨0, 99, 2, []⟩ = GuessResult.ok [[]] ∧
    Config.guessesChecked ⟨0, 99, 2, []⟩ ≠ GuessResult.err := by
  have h : Config.guessesChecked ⟨0, 99, 2, []⟩ = GuessResult.ok [[]] := by
    have h1 : mul64 2 2 = some 4 := by
      unfold mul64
      rw [if_pos (by norm_num [U64])]
    have h2 : add64 4 1 = some 5 := by
      unfold add64
      rw [if_pos (by norm_num [U64])]
    have h3 : pow64 5 0 = some 1 := by
      unfold pow64
      rw [pow_zero, if_pos (by norm_num [U64])]
    have h4 : (List.range 1).mapM
        (fun delta => buildGuess64 0 99 2 5 delta []) = some [[]] := rfl
    have h5 : ([[]] : List (List Nat)).mapM (fun g => errors64 0 99 [] g) =
        some [0] := rfl
    have hlen : (0 : Nat) < 2 ^ 32 := by norm_num
    simp only [Config.guessesChecked, List.length_nil, h1, h2, hlen, if_true,
      h3, h4, h5]
    simp [List.mergeSort_singleton]
  exact ⟨h, by rw [h]; intro hcon; cases hcon⟩

/-- Claim C6, amended: when `min > max` (with a non-empty combination and no
other overflow), `Config::guesses` does not report an "invalid ring bounds"
error: the u64 subtraction inside `modulus` underflows, which aborts the run
(debug panic / wrap in release); no configuration error is returned. -/
theorem Config.guessesChecked_invalid_bounds (c : Config)
    (hne : c.combination ≠ []) (hmm : c.max < c.min)
    (hb : c.range * 2 + 1 < U64)
    (hlen : c.combination.length < 2 ^ 32)
    (hpow : (c.range * 2 + 1) ^ c.combination.length < U64) :
    c.guessesChecked = .panic := by
  have h1 : mul64 c.range 2 = some (c.range * 2) := by
    unfold mul64
    rw [if_pos (by omega)]
  have h2 : add64 (c.range * 2) 1 = some (c.range * 2 + 1) := by
    unfold add64
    rw [if_pos hb]
  have h3 : pow64 (c.range * 2 + 1) c.combination.length =
      some ((c.range * 2 + 1) ^ c.combination.length) := by
    unfold pow64
    rw [if_pos hpow]
  have hmd : modulus64 c.min c.max = none := by
    unfold modulus64 sub64
    rw [if_neg (by omega)]
    rfl
  have hdig : ∀ n dn, digit64 c.min c.max c.range n dn = none := by
    intro n dn
    unfold digit64
    cases h : sub64 n c.min with
    | none => rfl
    | some o =>
      rw [hmd]
      rfl
  have hbuild : ∀ delta,
      buildGuess64 c.min c.max c.range (c.range * 2 + 1) delta c.combination =
        none := by
    intro delta
    cases hcc : c.combination with
    | nil => exact absurd hcc hne
    | cons n rest =>
      unfold buildGuess64
      rw [hdig]
      rfl
  have hmapM : (List.range ((c.range * 2 + 1) ^ c.combination.length)).mapM
      (fun delta =>
        buildGuess64 c.min c.max c.range (c.range * 2 + 1) delta c.combination) =
      none := by
    apply mapM_eq_none_of_all_none
    · have hpos : 0 < (c.range * 2 + 1) ^ c.combination.length :=
        pow_pos (by omega) _
      intro hcon
      rw [List.range_eq_nil] at hcon
      omega
    · intro x _
      exact hbuild x
  simp only [Config.guessesChecked, h1, h2, hlen, if_true, h3, hmapM]

theorem guessesChecked_invalid_bounds_witness :
    ([1] : List Nat) ≠ [] ∧ (0 : Nat) < 1 ∧ 0 * 2 + 1 < U64 ∧
    ([1] : List Nat).length < 2 ^ 32 ∧ (0 * 2 + 1) ^ ([1] : List Nat).length < U64 ∧
    Config.guessesChecked ⟨1, 0, 0, [1]⟩ = GuessResult.panic :=
  ⟨by decide, by decide, by decide, by decide, by decide,
    Config.guessesChecked_invalid_bounds ⟨1, 0, 0, [1]⟩ (by decide) (by decide)
      (by decide) (by decide) (by decide)⟩

/-- Claim C6 counterexample: with `min = 1 > max = 0` the checked `guesses`
aborts on u64 underflow (a panic, not a returned configuration error). -/
theorem guessesChecked_invalid_bounds_counterexample :
    Config.guessesChecked ⟨1, 0, 0, [1]⟩ = GuessResult.panic ∧
    Config.guessesChecked ⟨1, 0, 0, [1]⟩ ≠ GuessResult.err := by
  decide

/-- Claim C7, amended: when `(2*range+1)^k` exceeds the u64 range (while
`2*range + 1` and the `u32` length conversion are fine), `Config::guesses`
does not report a "search space too large" error: the unchecked `pow`
overflows, aborting the run (debug panic / wrap in release). -/
theorem Config.guessesChecked_overflow (c : Config)
    (hb : c.range * 2 + 1 < U64)
    (hlen : c.combination.length < 2 ^ 32)
    (hpow : U64 ≤ (c.range * 2 + 1) ^ c.combination.length) :
    c.guessesChecked = .panic := by
  have h1 : mul64 c.range 2 = some (c.range * 2) := by
    unfold mul64
    rw [if_pos (by omega)]
  have h2 : add64 (c.range * 2) 1 = some (c.range * 2 + 1) := by
    unfold add64
    rw [if_pos hb]
  have h3 : pow64 (c.range * 2 + 1) c.combination.length = none := by
    unfold pow64
    rw [if_neg (by omega)]
  simp only [Config.guessesChecked, h1, h2, hlen, if_true, h3]

theorem guessesChecked_overflow_witness :
    1 * 2 + 1 < U64 ∧ (List.replicate 41 (0 : Nat)).length < 2 ^ 32 ∧
    U64 ≤ (1 * 2 + 1) ^ (List.replicate 41 (0 : Nat)).length ∧
    Config.guessesChecked ⟨0, 99, 1, List.replicate 41 0⟩ = GuessResult.panic :=
  ⟨by decide, by decide, by decide,
    Config.guessesChecked_overflow ⟨0, 99, 1, List.replicate 41 0⟩ (by decide)
      (by decide) (by decide)⟩

/-- Claim C7 counterexample: for `range = 1` and a 41-digit combination,
`3^41` exceeds the u64 range; the checked `guesses` aborts on the overflowing
`pow` (a panic, not a returned configuration error). -/
theorem guessesChecked_overflow_counterexample :
    Config.guessesChecked ⟨0, 99, 1, List.replicate 41 0⟩ = GuessResult.panic ∧
    Config.guessesChecked ⟨0, 99, 1, List.replicate 41 0⟩ ≠ GuessResult.err := by
  decide

end Combomatic
